import Mathlib

/-!
Verification of the wenku8 novel downloader / EPUB builder.

The development shallowly embeds the repository's two modules
(`novolmanager.py` and `generate_hashes.py`): the SHA-256 content hasher,
the illustration integrity ledger (`save_hashes` / `check_hashes`), the
text segmenter and spine/TOC assembler inside `create_epub`, and the TXT
download fallback logic (`download_txt` and its caller).  Files are bytes,
the filesystem is explicit state, and Python exceptions are `Except`.
-/

abbrev Bytes := List Nat

/-- Truncate to a 32-bit word. -/
def w32 (n : Nat) : Nat := n % 4294967296

/-- 32-bit rotate right. -/
def rotr (n x : Nat) : Nat := w32 ((x >>> n) ||| (x <<< (32 - n)))

/-- The 64 SHA-256 round constants of FIPS 180-4 (the fractional parts
of the cube roots of the first 64 primes), written in decimal. -/
def sha256K : List Nat :=
  [1116352408, 1899447441, 3049323471, 3921009573, 961987163, 1508970993,
   2453635748, 2870763221, 3624381080, 310598401, 607225278, 1426881987,
   1925078388, 2162078206, 2614888103, 3248222580, 3835390401, 4022224774,
   264347078, 604807628, 770255983, 1249150122, 1555081692, 1996064986,
   2554220882, 2821834349, 2952996808, 3210313671, 3336571891, 3584528711,
   113926993, 338241895, 666307205, 773529912, 1294757372, 1396182291,
   1695183700, 1986661051, 2177026350, 2456956037, 2730485921, 2820302411,
   3259730800, 3345764771, 3516065817, 3600352804, 4094571909, 275423344,
   430227734, 506948616, 659060556, 883997877, 958139571, 1322822218,
   1537002063, 1747873779, 1955562222, 2024104815, 2227730452, 2361852424,
   2428436474, 2756734187, 3204031479, 3329325298]

/-- The SHA-256 initial hash value of FIPS 180-4 (fractional parts of
the square roots of the first 8 primes), written in decimal. -/
def sha256Init : List Nat :=
  [1779033703, 3144134277, 1013904242, 2773480762,
   1359893119, 2600822924, 528734635, 1541459225]

def smallSigma0 (x : Nat) : Nat := (rotr 7 x) ^^^ (rotr 18 x) ^^^ (x >>> 3)

def smallSigma1 (x : Nat) : Nat := (rotr 17 x) ^^^ (rotr 19 x) ^^^ (x >>> 10)

/-- Expand the 16 block words to the 64-entry message schedule. -/
def scheduleW (ws16 : List Nat) : List Nat :=
  let rev := (List.range 48).foldl
    (fun acc _ =>
      (w32 (smallSigma1 (acc.getD 1 0) + acc.getD 6 0 + smallSigma0 (acc.getD 14 0) + acc.getD 15 0)) :: acc)
    ws16.reverse
  rev.reverse

def compressRound (st : List Nat) (k w : Nat) : List Nat :=
  match st with
  | [a, b, c, d, e, f, g, h] =>
      let s1 := (rotr 6 e) ^^^ (rotr 11 e) ^^^ (rotr 25 e)
      let ch := (e &&& f) ^^^ ((e ^^^ 0xffffffff) &&& g)
      let temp1 := w32 (h + s1 + ch + k + w)
      let s0 := (rotr 2 a) ^^^ (rotr 13 a) ^^^ (rotr 22 a)
      let maj := (a &&& b) ^^^ (a &&& c) ^^^ (b &&& c)
      let temp2 := w32 (s0 + maj)
      [w32 (temp1 + temp2), a, b, c, w32 (d + temp1), e, f, g]
  | _ => st

def compressBlock (st ws16 : List Nat) : List Nat :=
  let w := scheduleW ws16
  let st2 := (sha256K.zip w).foldl (fun s kw => compressRound s kw.1 kw.2) st
  List.zipWith (fun a b => w32 (a + b)) st st2

def lengthBytes (bits : Nat) : Bytes :=
  (List.range 8).map (fun i => (bits >>> (8 * (7 - i))) % 256)

def padMessage (bs : Bytes) : Bytes :=
  let l := bs.length
  let zeros := (64 + 55 - l % 64) % 64
  bs ++ 0x80 :: (List.replicate zeros 0 ++ lengthBytes (8 * l))

def wordsOfBlock (padded : Bytes) (blockIdx : Nat) : List Nat :=
  (List.range 16).map (fun j =>
    let o := 64 * blockIdx + 4 * j
    ((padded.getD o 0) <<< 24) + ((padded.getD (o + 1) 0) <<< 16) +
      ((padded.getD (o + 2) 0) <<< 8) + padded.getD (o + 3) 0)

def sha256words (bs : Bytes) : List Nat :=
  let padded := padMessage bs
  (List.range (padded.length / 64)).foldl
    (fun st i => compressBlock st (wordsOfBlock padded i)) sha256Init

def hexDigits : List Char := "0123456789abcdef".data

def toHexWord (w : Nat) : List Char :=
  (List.range 8).map (fun i => hexDigits.getD ((w >>> (4 * (7 - i))) % 16) '0')

/-- The lowercase hex digest of the SHA-256 of a byte sequence
(`hashlib.sha256(...).hexdigest()`). -/
def sha256hex (bs : Bytes) : String :=
  String.mk (((sha256words bs).map toHexWord).flatten)

/-!
## Filesystem model

Paths are lists of components (`os.path.join` is append, `os.path.basename`
is the last component).  A path can hold no file, a file whose bytes cannot
be read (`open` raises `IOError` but `os.path.exists` / `os.path.getsize`
still succeed), or readable content.  The `.hash` ledger file is carried as
a separate channel holding its parsed JSON: `none` means the file does not
exist, `some none` a file whose `json.load` raises, `some (some L)` a file
parsing to ledger `L`.
-/

abbrev FPath := List String

inductive FileState where
  | absent : FileState
  | unreadable : Bytes → FileState
  | content : Bytes → FileState
deriving DecidableEq

/-- `mapping(volumeName -> mapping(fileName -> fingerprintHex))`, in
insertion order as a Python `dict` / JSON object preserves it. -/
abbrev Ledger := List (String × List (String × String))

/-- `mapping(volumeName -> list of on-disk paths)` as produced by
`check_hashes` and consumed by `save_hashes`. -/
abbrev ResolvedMap := List (String × List FPath)

structure FS where
  file : FPath → FileState
  isDir : FPath → Bool
  hashFile : FPath → Option (Option Ledger)
  listdir : FPath → List String

/-- `os.path.exists` (true for unreadable-but-present files too). -/
def pathExists (fs : FS) (p : FPath) : Bool :=
  match fs.file p with
  | FileState.absent => false
  | _ => true

/-- `os.path.getsize`. -/
def fileSize (fs : FS) (p : FPath) : Nat :=
  match fs.file p with
  | FileState.absent => 0
  | FileState.unreadable bs => bs.length
  | FileState.content bs => bs.length

/-- `os.path.basename` on a component path. -/
def basename (p : FPath) : String := p.getLastD ""

/-- Overwrite the file at `q` (used to model mutating / adding a file). -/
def setFile (fs : FS) (q : FPath) (st : FileState) : FS :=
  { fs with file := fun p => if p = q then st else fs.file p }

/-- A successful binary write (`open(path,'wb').write(bytes)`). -/
def writeFile (fs : FS) (q : FPath) (bs : Bytes) : FS :=
  setFile fs q (FileState.content bs)

/-- `json.dump` of a ledger to the hash file; what was written parses back
to the same ledger. -/
def writeHashFile (fs : FS) (p : FPath) (L : Ledger) : FS :=
  { fs with hashFile := fun q => if q = p then some (some L) else fs.hashFile q }

/-!
## The two content hashers

`novolmanager.get_file_sha256` lets any `IOError` from `open`/`read`
propagate; `generate_hashes.get_file_sha256` wraps the read in
`try/except IOError` and returns `None` on failure.
-/

/-- `novolmanager.get_file_sha256`: no exception handler, so a missing or
unreadable file raises to the caller. -/
def get_file_sha256 (fs : FS) (p : FPath) : Except Unit String :=
  match fs.file p with
  | FileState.content bs => Except.ok (sha256hex bs)
  | _ => Except.error ()

/-- `generate_hashes.get_file_sha256`: identical computation, but the
`except IOError` branch returns `None`. -/
def GenerateHashes.get_file_sha256 (fs : FS) (p : FPath) : Option String :=
  match fs.file p with
  | FileState.content bs => some (sha256hex bs)
  | _ => none

/-!
## Python `dict` as an ordered association list

Insertion keeps the first occurrence's position but the latest value;
lookup finds the unique entry; `pop` removes it.
-/

def dictInsert [DecidableEq κ] (k : κ) (v : α) : List (κ × α) → List (κ × α)
  | [] => [(k, v)]
  | kv :: rest => if kv.1 = k then (kv.1, v) :: rest else kv :: dictInsert k v rest

def dictErase [DecidableEq κ] (k : κ) : List (κ × α) → List (κ × α)
  | [] => []
  | kv :: rest => if kv.1 = k then rest else kv :: dictErase k rest

/-!
## The integrity ledger: `save_hashes` and `check_hashes`
-/

/-- The dict comprehension `{os.path.basename(p): get_file_sha256(p) for p
in paths}` of `save_hashes`; the first unreadable path raises. -/
def volumeEntryHashes (fs : FS) : List FPath → List (String × String) →
    Except Unit (List (String × String))
  | [], acc => Except.ok acc
  | p :: rest, acc =>
      match get_file_sha256 fs p with
      | Except.error e => Except.error e
      | Except.ok h => volumeEntryHashes fs rest (dictInsert (basename p) h acc)

/-- The `hashes` dict built by `save_hashes` over all volumes. -/
def buildHashes (fs : FS) : ResolvedMap → Except Unit Ledger
  | [] => Except.ok []
  | vp :: rest =>
      match volumeEntryHashes fs vp.2 [] with
      | Except.error e => Except.error e
      | Except.ok entries =>
          match buildHashes fs rest with
          | Except.error e => Except.error e
          | Except.ok r => Except.ok ((vp.1, entries) :: r)

/-- `novolmanager.save_hashes`: recompute every fingerprint, then dump the
whole ledger to the hash file. -/
def save_hashes (fs : FS) (hash_file_path : FPath) (illustration_data : ResolvedMap) :
    Except Unit FS :=
  match buildHashes fs illustration_data with
  | Except.error e => Except.error e
  | Except.ok hashes => Except.ok (writeHashFile fs hash_file_path hashes)

/-- The inner `for filename, filehash in files.items()` loop of
`check_hashes`: `(False, [])` models `all_match = False; break`. -/
def checkVolumeFiles (fs : FS) (vp : FPath) : List (String × String) →
    Except Unit (Bool × List FPath)
  | [] => Except.ok (true, [])
  | fh :: rest =>
      let filepath := vp ++ [fh.1]
      if pathExists fs filepath then
        match get_file_sha256 fs filepath with
        | Except.error e => Except.error e
        | Except.ok h =>
            if h = fh.2 then
              match checkVolumeFiles fs vp rest with
              | Except.error e => Except.error e
              | Except.ok mp => Except.ok (mp.1, filepath :: mp.2)
            else Except.ok (false, [])
      else Except.ok (false, [])

/-- The outer `for volume, files in saved_hashes.items()` loop of
`check_hashes`; `none` models the `(False, None)` early returns. -/
def checkVolumes (fs : FS) (dl : FPath) : Ledger → Except Unit (Option ResolvedMap)
  | [] => Except.ok (some [])
  | vf :: rest =>
      let volumePath := dl ++ [vf.1]
      if fs.isDir volumePath then
        match checkVolumeFiles fs volumePath vf.2 with
        | Except.error e => Except.error e
        | Except.ok (true, ps) =>
            match checkVolumes fs dl rest with
            | Except.error e => Except.error e
            | Except.ok none => Except.ok none
            | Except.ok (some d) => Except.ok (some ((vf.1, ps) :: d))
        | Except.ok (false, _) => Except.ok none
      else Except.ok none

/-- `novolmanager.check_hashes`: a missing hash file yields `(False, None)`;
a hash file whose JSON fails to parse raises; otherwise every recorded
volume and fingerprint is validated against the filesystem. -/
def check_hashes (fs : FS) (hash_file_path download_dir : FPath) :
    Except Unit (Bool × Option ResolvedMap) :=
  match fs.hashFile hash_file_path with
  | none => Except.ok (false, none)
  | some none => Except.error ()
  | some (some saved) =>
      match checkVolumes fs download_dir saved with
      | Except.error e => Except.error e
      | Except.ok none => Except.ok (false, none)
      | Except.ok (some d) => Except.ok (true, some d)

/-- The paths a ledger refers to below a base directory. -/
def refPaths (dl : FPath) (L : Ledger) : List FPath :=
  L.flatMap (fun vf => vf.2.map (fun fh => dl ++ [vf.1, fh.1]))

/-- Whether the ledger stored at `p` (if any) references path `q`. -/
def referencedInLedger (fs : FS) (p dl q : FPath) : Bool :=
  match fs.hashFile p with
  | some (some L) => decide (q ∈ refPaths dl L)
  | _ => false

/-- The complete resource map `check_hashes` resolves on full success. -/
def resolvedOf (dl : FPath) (L : Ledger) : ResolvedMap :=
  L.map (fun vf => (vf.1, vf.2.map (fun fh => dl ++ [vf.1, fh.1])))

/-!
## String utilities

Python string operations used by the segmenter, re-implemented over the
character list underlying `String` so that every definition reduces in the
kernel: `strip`, `splitlines` / joining, `startswith`, substring search,
`replace`, `lower`, `endswith`.
-/

/-- Whether `pre` is an initial segment of `s` (Python `startswith`). -/
def listStarts [DecidableEq α] : List α → List α → Bool
  | [], _ => true
  | _ :: _, [] => false
  | a :: as, b :: bs => a = b && listStarts as bs

def strStarts (s pre : String) : Bool := listStarts pre.data s.data

/-- Python `str.strip()`. -/
def pyStrip (s : String) : String :=
  String.mk (((s.data.dropWhile Char.isWhitespace).reverse.dropWhile Char.isWhitespace).reverse)

/-- Split on `'\n'` (how the segmenter consumes multi-line text). -/
def splitLinesChars (cs : List Char) : List (List Char) :=
  cs.foldr
    (fun c acc =>
      match acc with
      | [] => [[c]]
      | l :: ls => if c = '\n' then [] :: (l :: ls) else (c :: l) :: ls)
    [[]]

def linesOf (s : String) : List String := (splitLinesChars s.data).map String.mk

def joinLines : List String → String
  | [] => ""
  | [l] => l
  | l :: l2 :: ls => l ++ "\n" ++ joinLines (l2 :: ls)

/-- Substring containment (used for `"插图" in line`-style tests). -/
def listHasSeg [DecidableEq α] (needle : List α) : List α → Bool
  | [] => listStarts needle []
  | c :: rest => listStarts needle (c :: rest) || listHasSeg needle rest

def strHasSeg (s needle : String) : Bool := listHasSeg needle.data s.data

/-- Python `str.replace` (left-to-right, non-overlapping), by fuel. -/
def replaceAux (nd rep : List Char) : Nat → List Char → List Char
  | 0, h => h
  | Nat.succ fuel, h =>
      match h with
      | [] => []
      | c :: rest =>
          if listStarts nd h then rep ++ replaceAux nd rep fuel (h.drop nd.length)
          else c :: replaceAux nd rep fuel rest

def strReplace (s nd rep : String) : String :=
  String.mk (replaceAux nd.data rep.data s.data.length s.data)

def charLower (c : Char) : Char :=
  if 'A' ≤ c && c ≤ 'Z' then Char.ofNat (c.toNat + 32) else c

def strLower (s : String) : String := String.mk (s.data.map charLower)

def strEnds (s suf : String) : Bool := listStarts suf.data.reverse s.data.reverse

/-!
## `generate_hashes.py`: scanning an existing volume directory

The inner loop of `generate_hashes_for_existing_downloads` over one volume
folder: every directory entry with an image extension is hashed with the
soft-failing hasher, and only entries whose hash computation succeeded are
recorded.
-/

def IMAGE_EXTENSIONS : List String := [".jpg", ".jpeg", ".png", ".gif", ".webp"]

def hasImageExt (filename : String) : Bool :=
  IMAGE_EXTENSIONS.any (fun e => strEnds (strLower filename) e)

/-- One `for filename in os.listdir(item_path)` iteration of
`generate_hashes_for_existing_downloads`: hash image files with the
soft hasher and record only successes. -/
def scanStep (fs : FS) (item_path : FPath) (acc : List (String × String))
    (filename : String) : List (String × String) :=
  if hasImageExt filename then
    match GenerateHashes.get_file_sha256 fs (item_path ++ [filename]) with
    | some h => dictInsert filename h acc
    | none => acc
  else acc

/-- `book_hashes[volume_name]` for one volume folder. -/
def volumeScanHashes (fs : FS) (item_path : FPath) : List (String × String) :=
  (fs.listdir item_path).foldl (scanStep fs item_path) []

/-!
## Heading matchers

Line-anchored regular expressions from `create_epub`, compiled to total
functions on single lines.  `re.split` with a `^( ... )$` multi-line
pattern separates a text at exactly the lines matched by the alternation,
so the segmenter is modelled line-by-line.
-/

def volChars : List Char := ['一', '二', '三', '四', '五', '六', '七', '八', '九', '十', '百']

def chapChars : List Char := ['一', '二', '三', '四', '五', '六', '七', '八', '九', '十', '零']

/-- `re.match(r'(第[一二三四五六七八九十百]+卷|短篇|SS\d*|特典)', title)`:
the structural marker at the head of a heading, if any. -/
def volumeMarkerHead (s : String) : Option String :=
  match s.data with
  | '第' :: rest =>
      let run := rest.takeWhile (fun c => volChars.contains c)
      if run.isEmpty then none
      else
        match rest.drop run.length with
        | '卷' :: _ => some (String.mk ('第' :: (run ++ ['卷'])))
        | _ => none
  | '短' :: '篇' :: _ => some "短篇"
  | '特' :: '典' :: _ => some "特典"
  | 'S' :: 'S' :: rest => some (String.mk ('S' :: 'S' :: rest.takeWhile Char.isDigit))
  | _ => none

/-- `get_core_volume_name` from `create_epub`. -/
def get_core_volume_name (title : String) : String :=
  (volumeMarkerHead title).getD title

/-- A line matched by `split_pattern`: it starts with a known volume title
or with a generic structural marker (`.*` then reaches the line end). -/
def isVolumeBoundaryLine (known : List String) (line : String) : Bool :=
  known.any (fun t => strStarts line t) || (volumeMarkerHead line).isSome

/-- `第[一二三四五六七八九十零\d]+[章话节].*` matched against a line start. -/
def diChapterMatch (s : String) : Bool :=
  match s.data with
  | '第' :: rest =>
      let run := rest.takeWhile (fun c => chapChars.contains c || c.isDigit)
      if run.isEmpty then false
      else
        match rest.drop run.length with
        | c :: _ => c = '章' || c = '话' || c = '节'
        | [] => false
  | _ => false

/-- A line matched by `sub_chapter_pattern`. -/
def isChapterHeading (line : String) : Bool :=
  diChapterMatch line || line = "终章" || line = "序章" || line = "后记" ||
    line = "Epilogue" || line = "Prologue"

/-!
## Line splitting on boundary headings

`re.split(pattern, text, flags=re.MULTILINE)` with one capturing group
alternates `[prefix, heading, body, heading, body, ...]`.
-/

def splitByHeadings (isB : String → Bool) :
    List String → List String × List (String × List String)
  | [] => ([], [])
  | l :: ls =>
      let r := splitByHeadings isB ls
      if isB l then ([], (l, r.1) :: r.2) else (l :: r.1, r.2)

/-- Prefix text and `(heading, body)` pairs of a text under a line
classifier: `parts[0]`, `parts[1::2]` zipped with `parts[2::2]`. -/
def partsOf (isB : String → Bool) (content : String) :
    String × List (String × String) :=
  let r := splitByHeadings isB (linesOf content)
  (joinLines r.1, r.2.map (fun hp => (hp.1, joinLines hp.2)))

/-- `re.sub(r'.*插图.*', '', volume_text)`: any line mentioning 插图 is
emptied (the surrounding newlines stay). -/
def stripIllustLines (s : String) : String :=
  joinLines ((linesOf s).map (fun l => if strHasSeg l "插图" then "" else l))

/-!
## EPUB assembly model

`EpubHtml` keeps the fields the spine and TOC observe; the book's spine is
a list of items (`'nav'` is EbookLib's navigation placeholder) and the TOC
a list of links, standalone chapters and per-volume sections.
-/

structure EpubHtml where
  title : String
  fileName : String
  content : String
deriving DecidableEq

inductive SpineItem where
  | nav : SpineItem
  | html : EpubHtml → SpineItem
deriving DecidableEq

inductive TocEntry where
  | link : String → String → String → TocEntry
  | item : EpubHtml → TocEntry
  | sect : String → List EpubHtml → TocEntry
deriving DecidableEq

structure Metadata where
  author : String
  synopsis : String

structure BookResult where
  spine : List SpineItem
  toc : List TocEntry
deriving DecidableEq

/-- `re.sub(r'[\\/*?:"<>|]', '', s)`. -/
def sanitizeName (s : String) : String :=
  String.mk (s.data.filter (fun c => !(['\\', '/', '*', '?', ':', '"', '<', '>', '|'].contains c)))

/-- Ordered-dict lookup. -/
def dictFind [DecidableEq κ] (k : κ) : List (κ × α) → Option α
  | [] => none
  | kv :: rest => if kv.1 = k then some kv.2 else dictFind k rest

/-- The `illustration_items` dict: every readable illustration file is
registered under its path with its internal EPUB file name. -/
def illustrationItems (fs : FS) (data : ResolvedMap) : List (FPath × String) :=
  data.foldl
    (fun acc vp =>
      vp.2.foldl
        (fun acc2 p =>
          match fs.file p with
          | FileState.content _ =>
              dictInsert p ("images/" ++ sanitizeName vp.1 ++ "/" ++ basename p) acc2
          | _ => acc2)
        acc)
    []

/-- `core_illustration_map`: illustration data re-keyed by core name. -/
def buildCoreMap (data : ResolvedMap) : ResolvedMap :=
  data.foldl (fun m vp => dictInsert (get_core_volume_name vp.1) vp.2 m) []

/-- Paragraph HTML: one `<p>` per stripped non-blank line. -/
def paragraphsHtml (s : String) : String :=
  String.join ((linesOf s).filterMap (fun line =>
    if pyStrip line = "" then none else some ("<p>" ++ pyStrip line ++ "</p>")))

/-- Paragraphs of the single-chapter fallback: lines that are blank or
equal to the volume title are dropped. -/
def volumeFullParagraphs (volume_title s : String) : String :=
  String.join ((linesOf s).filterMap (fun line =>
    if pyStrip line ≠ "" ∧ pyStrip line ≠ volume_title then
      some ("<p>" ++ pyStrip line ++ "</p>")
    else none))

/-- The single whole-volume chapter built when a volume has no chapter
boundaries. -/
def fallbackChapter (volume_title volume_text : String) (idx : Nat) : EpubHtml :=
  { title := volume_title,
    fileName := "vol_" ++ toString idx ++ "_full.xhtml",
    content := "<h1>" ++ volume_title ++ "</h1>" ++ volumeFullParagraphs volume_title volume_text }

/-- The chapter loop: chapter 1 gets the volume intro text prepended, the
others only their own body. -/
def buildSubChaptersFrom (intro : String) (volIdx subIdx : Nat) :
    List (String × String) → List EpubHtml
  | [] => []
  | ts :: rest =>
      let sub_title := pyStrip ts.1
      let full := (if subIdx = 1 then intro else "") ++ pyStrip ts.2
      { title := sub_title,
        fileName := "vol_" ++ toString volIdx ++ "_chap_" ++ toString subIdx ++ ".xhtml",
        content := "<h1>" ++ sub_title ++ "</h1>" ++ paragraphsHtml full }
        :: buildSubChaptersFrom intro volIdx (subIdx + 1) rest

def buildSubChapters (intro : String) (volIdx : Nat)
    (subs : List (String × String)) : List EpubHtml :=
  buildSubChaptersFrom intro volIdx 1 subs

/-- One iteration of the volume loop of `create_epub`, transforming the
accumulated `(spine_items, final_toc, core_illustration_map)` state. -/
def stepVolume (items : List (FPath × String))
    (st : List SpineItem × List TocEntry × ResolvedMap)
    (idx : Nat) (vtRaw vtextRaw : String) :
    List SpineItem × List TocEntry × ResolvedMap :=
  let volume_title := pyStrip vtRaw
  let volume_text0 := pyStrip vtextRaw
  let spA :=
    match dictFind (get_core_volume_name volume_title) st.2.2 with
    | some image_paths =>
        let m' := dictErase (get_core_volume_name volume_title) st.2.2
        let parts := image_paths.filterMap (fun p =>
          (dictFind p items).map (fun fn =>
            "<div class=\"illustration\"><img src=\"" ++ fn ++ "\" alt=\"插图\"/></div>"))
        if parts.isEmpty then (st.1, m')
        else
          (st.1 ++ [SpineItem.html
            { title := volume_title ++ " 插图",
              fileName := "illust_" ++ toString idx ++ ".xhtml",
              content := String.join parts }], m')
    | none => (st.1, st.2.2)
  let volume_text := stripIllustLines volume_text0
  let sp := partsOf isChapterHeading volume_text
  if sp.2.isEmpty then
    if pyStrip volume_text ≠ "" then
      let c := fallbackChapter volume_title volume_text idx
      (spA.1 ++ [SpineItem.html c], st.2.1 ++ [TocEntry.item c], spA.2)
    else (spA.1, st.2.1, spA.2)
  else
    let chs := buildSubChapters (pyStrip sp.1) idx sp.2
    (spA.1 ++ chs.map SpineItem.html,
     if chs.isEmpty then st.2.1 else st.2.1 ++ [TocEntry.sect volume_title chs],
     spA.2)

/-- `for volume_index, (volume_title, volume_text) in enumerate(zip(...), 1)`. -/
def volumeLoop (items : List (FPath × String)) :
    List SpineItem × List TocEntry × ResolvedMap → Nat → List (String × String) →
    List SpineItem × List TocEntry × ResolvedMap
  | st, _, [] => st
  | st, idx, vt :: rest => volumeLoop items (stepVolume items st idx vt.1 vt.2) (idx + 1) rest

/-- The cover XHTML page body (the f-string literal of `create_epub`). -/
def coverPageContent : String :=
  "\n                <html xmlns=\"http://www.w3.org/1999/xhtml\">\n                <head>\n                    <title>封面</title>\n                    <style>\n                        body \x7b margin:0; padding:0; text-align:center; \x7d\n                        img \x7b max-width:100%; max-height:100vh; object-fit:contain; \x7d\n                    </style>\n                </head>\n                <body>\n                    <div><img src=\"images/cover.jpg\" alt=\"封面\"/></div>\n                </body>\n                </html>\n            "

/-- Cover handling of `create_epub`: a cover XHTML page exists exactly
when a cover path was supplied and its bytes could be read (a read error
is caught and disables the cover). -/
def coverPageOf (fs : FS) (cover_path : Option FPath) : Option EpubHtml :=
  match cover_path with
  | some p =>
      match fs.file p with
      | FileState.content _ =>
          some { title := "封面", fileName := "cover.xhtml", content := coverPageContent }
      | _ => none
  | none => none

/-- The synopsis page built from the scraped metadata. -/
def synopsisPage (metadata : Metadata) : EpubHtml :=
  { title := "简介", fileName := "synopsis.xhtml",
    content := "<h1>简介</h1><p>" ++
      strReplace (strReplace metadata.synopsis "\n" "</p><p>") "　　" "" ++ "</p>" }

/-- The prologue page: present exactly when the text before the first
volume boundary is non-empty after stripping. -/
def prologuePageOf (preText : String) : Option EpubHtml :=
  if pyStrip preText ≠ "" then
    some { title := "序章", fileName := "prologue.xhtml",
           content := "<h1>序章</h1>" ++ paragraphsHtml (pyStrip preText) }
  else none

def optSpine : Option EpubHtml -> List SpineItem
  | some c => [SpineItem.html c]
  | none => []

def optTocItem : Option EpubHtml -> List TocEntry
  | some c => [TocEntry.item c]
  | none => []

/-- `create_epub`, restricted to what it hands the container sink: the
spine (reading order) and table of contents it assembles. -/
def createEpub (fs : FS) (metadata : Metadata) (content : String)
    (illustration_data : ResolvedMap) (cover_path : Option FPath) : BookResult :=
  let items := illustrationItems fs illustration_data
  let core_map := buildCoreMap illustration_data
  let spine1 := (optSpine (coverPageOf fs cover_path) ++ [SpineItem.nav]) ++
    [SpineItem.html (synopsisPage metadata)]
  let toc1 : List TocEntry := [TocEntry.link "synopsis.xhtml" "简介" "synopsis"]
  let pr := partsOf (isVolumeBoundaryLine (illustration_data.map Prod.fst)) content
  let st1 := (spine1 ++ optSpine (prologuePageOf pr.1), toc1 ++ optTocItem (prologuePageOf pr.1))
  let fin := volumeLoop items (st1.1, st1.2, core_map) 1 pr.2
  { spine := fin.1, toc := fin.2.1 }

/-!
## Declarative (specification-side) view of the volume loop

The specification describes the reading order compositionally: for each
volume in source order an illustration page (when its core name still has
pending illustrations and at least one image resource resolved), then its
chapters.  These definitions follow those words; the theorems relate them
to the accumulated state of the faithful `volumeLoop`.
-/

/-- The illustration page a volume contributes, with the updated pending
illustration map. -/
def volumeIllustPage (items : List (FPath × String)) (idx : Nat) (m : ResolvedMap)
    (volume_title : String) : List SpineItem × ResolvedMap :=
  match dictFind (get_core_volume_name volume_title) m with
  | some image_paths =>
      let m' := dictErase (get_core_volume_name volume_title) m
      let parts := image_paths.filterMap (fun p =>
        (dictFind p items).map (fun fn =>
          "<div class=\"illustration\"><img src=\"" ++ fn ++ "\" alt=\"插图\"/></div>"))
      (if parts.isEmpty then []
       else [SpineItem.html
         { title := volume_title ++ " 插图",
           fileName := "illust_" ++ toString idx ++ ".xhtml",
           content := String.join parts }], m')
  | none => ([], m)

/-- The chapters a volume contributes: the detected sub-chapters, or the
single whole-volume fallback chapter when no boundary was found and the
processed body is non-blank. -/
def volumeChapters (idx : Nat) (volume_title volume_text : String) : List EpubHtml :=
  let sp := partsOf isChapterHeading volume_text
  if sp.2.isEmpty then
    if pyStrip volume_text ≠ "" then [fallbackChapter volume_title volume_text idx] else []
  else buildSubChapters (pyStrip sp.1) idx sp.2

/-- The TOC entries a volume contributes: a standalone chapter entry for
the fallback, or a section node holding the sub-chapters. -/
def volumeTocDelta (idx : Nat) (volume_title volume_text : String) : List TocEntry :=
  let sp := partsOf isChapterHeading volume_text
  if sp.2.isEmpty then
    if pyStrip volume_text ≠ "" then
      [TocEntry.item (fallbackChapter volume_title volume_text idx)]
    else []
  else
    let chs := buildSubChapters (pyStrip sp.1) idx sp.2
    if chs.isEmpty then [] else [TocEntry.sect volume_title chs]

/-- Reading order contributed by the volumes, compositionally. -/
def specVolumeSpine (items : List (FPath × String)) :
    Nat → ResolvedMap → List (String × String) → List SpineItem
  | _, _, [] => []
  | idx, m, vt :: rest =>
      let ip := volumeIllustPage items idx m (pyStrip vt.1)
      ip.1 ++ (volumeChapters idx (pyStrip vt.1) (stripIllustLines (pyStrip vt.2))).map SpineItem.html
        ++ specVolumeSpine items (idx + 1) ip.2 rest

/-- TOC entries contributed by the volumes, compositionally. -/
def specVolumeToc (items : List (FPath × String)) :
    Nat → ResolvedMap → List (String × String) → List TocEntry
  | _, _, [] => []
  | idx, m, vt :: rest =>
      let ip := volumeIllustPage items idx m (pyStrip vt.1)
      volumeTocDelta idx (pyStrip vt.1) (stripIllustLines (pyStrip vt.2))
        ++ specVolumeToc items (idx + 1) ip.2 rest

/-- Pending-illustration map after all volumes. -/
def specVolumeMap (items : List (FPath × String)) :
    Nat → ResolvedMap → List (String × String) → ResolvedMap
  | _, m, [] => m
  | idx, m, vt :: rest =>
      specVolumeMap items (idx + 1) (volumeIllustPage items idx m (pyStrip vt.1)).2 rest

/-!
## TXT retrieval: `download_txt` and its calling sequence
-/

structure HttpResponse where
  ok : Bool
  content : Bytes
deriving DecidableEq

/-- The network: what `requests.get(url, ...)` yields per URL; `none`
models a raised `requests` exception. -/
abbrev Network := String → Option HttpResponse

def txtUrl (node : Nat) (novel_id : String) : String :=
  "https://dl.wenku8.com/down.php?type=txt&node=" ++ toString node ++ "&id=" ++ novel_id

/-- `download_txt`: writes and reports success only for a non-error
response longer than 100 bytes; any exception is swallowed and every
failure becomes the sentinel `False`. -/
def download_txt (net : Network) (novel_id : String) (node : Nat)
    (save_path : FPath) (fs : FS) : Bool × FS :=
  match net (txtUrl node novel_id) with
  | none => (false, fs)
  | some r =>
      if r.ok && decide (100 < r.content.length) then (true, writeFile fs save_path r.content)
      else (false, fs)

/-- The TXT stage of `find_and_download_novel`: reuse a plausible local
file, otherwise try node 1 and only on failure node 2. -/
def txtStage (net : Network) (fs : FS) (novel_id : String) (txt_save_path : FPath) :
    Bool × FS :=
  if pathExists fs txt_save_path && decide (100 < fileSize fs txt_save_path) then (true, fs)
  else
    let r1 := download_txt net novel_id 1 txt_save_path fs
    if r1.1 then r1 else download_txt net novel_id 2 txt_save_path r1.2

/-!
## Concrete fixtures used by witnesses and counterexamples
-/

def fsEmpty : FS :=
  { file := fun _ => FileState.absent, isDir := fun _ => false,
    hashFile := fun _ => none, listdir := fun _ => [] }

/-- A filesystem whose hash file exists but holds malformed JSON. -/
def fsBadLedger : FS :=
  { fsEmpty with hashFile := fun p => if p = [".hash"] then some none else none }

/-- A filesystem with a single readable file. -/
def fsOneFile : FS :=
  { fsEmpty with file := fun p => if p = ["a"] then FileState.content [1] else FileState.absent }

/-- A filesystem with a single unreadable file. -/
def fsUnreadable : FS :=
  { fsEmpty with file := fun p => if p = ["img"] then FileState.unreadable [7] else FileState.absent }

/-!
## Theorems
-/

/-- C4 (counterexample): a hash file that exists but fails to parse makes
`check_hashes` raise (`json.load` has no handler), instead of returning
`(False, None)` as the claim states. -/
theorem ledger_load_parse_raises_cex :
    check_hashes fsBadLedger [".hash"] ["dl"] = Except.error () := rfl

/-- C4 (amended): ledger load fails soft only for a missing hash file,
returning `(False, None)`; a hash file that exists but cannot be parsed
raises to the caller. -/
theorem ledger_load_fail_soft :
    (∀ fs p dl, fs.hashFile p = none → check_hashes fs p dl = Except.ok (false, none)) ∧
    (∀ fs p dl, fs.hashFile p = some none → check_hashes fs p dl = Except.error ()) := by
  constructor
  · intro fs p dl h
    unfold check_hashes
    rw [h]
  · intro fs p dl h
    unfold check_hashes
    rw [h]

/-- C4 (witness): the fail-soft and raising branches at concrete inputs. -/
theorem ledger_load_fail_soft_witness :
    check_hashes fsEmpty [".hash"] ["dl"] = Except.ok (false, none) ∧
    check_hashes fsBadLedger [".hash"] ["dl"] = Except.error () :=
  ⟨ledger_load_fail_soft.1 fsEmpty [".hash"] ["dl"] rfl,
   ledger_load_fail_soft.2 fsBadLedger [".hash"] ["dl"] rfl⟩

/-- C3 (counterexample): the main module's `get_file_sha256` lets the
`IOError` of an unreadable file propagate instead of returning `None`. -/
theorem hasher_unreadable_raises_cex :
    get_file_sha256 fsUnreadable ["img"] = Except.error () := rfl

/-- C3 (amended): only the standalone generator's hasher converts an
unreadable stream to `None`; the main module's hasher propagates the
`IOError`.  Both return the hex digest of the bytes of a readable file. -/
theorem hasher_error_contract :
    (∀ fs p bs, fs.file p = FileState.content bs →
        GenerateHashes.get_file_sha256 fs p = some (sha256hex bs)) ∧
    (∀ fs p, (∀ bs, fs.file p ≠ FileState.content bs) →
        GenerateHashes.get_file_sha256 fs p = none) ∧
    (∀ fs p bs, fs.file p = FileState.content bs →
        get_file_sha256 fs p = Except.ok (sha256hex bs)) ∧
    (∀ fs p, (∀ bs, fs.file p ≠ FileState.content bs) →
        get_file_sha256 fs p = Except.error ()) := by
  refine ⟨?_, ?_, ?_, ?_⟩
  · intro fs p bs h
    unfold GenerateHashes.get_file_sha256
    rw [h]
  · intro fs p h
    unfold GenerateHashes.get_file_sha256
    cases hf : fs.file p with
    | content bs => exact absurd hf (h bs)
    | absent => rfl
    | unreadable bs => rfl
  · intro fs p bs h
    unfold get_file_sha256
    rw [h]
  · intro fs p h
    unfold get_file_sha256
    cases hf : fs.file p with
    | content bs => exact absurd hf (h bs)
    | absent => rfl
    | unreadable bs => rfl

/-- C3 (witness): both hashers at a readable file, the soft hasher at a
missing file, the raising hasher at an unreadable file. -/
theorem hasher_error_contract_witness :
    GenerateHashes.get_file_sha256 fsOneFile ["a"] = some (sha256hex [1]) ∧
    GenerateHashes.get_file_sha256 fsOneFile ["b"] = none ∧
    get_file_sha256 fsOneFile ["a"] = Except.ok (sha256hex [1]) ∧
    get_file_sha256 fsUnreadable ["img"] = Except.error () :=
  ⟨hasher_error_contract.1 fsOneFile ["a"] [1] rfl,
   hasher_error_contract.2.1 fsOneFile ["b"] (fun _bs h => nomatch h),
   hasher_error_contract.2.2.1 fsOneFile ["a"] [1] rfl,
   hasher_error_contract.2.2.2 fsUnreadable ["img"] (fun _bs h => nomatch h)⟩

/-- C5 (counterexample): `save_hashes` calls the raising hasher, so one
unreadable illustration path makes it raise rather than omit the entry. -/
theorem save_hashes_unreadable_raises_cex :
    save_hashes fsUnreadable [".hash"] [("v", [["img"]])] = Except.error () := rfl

/-- Lemma: the inner dict comprehension of `save_hashes` raises as soon as
one path is unreadable. -/
theorem volumeEntryHashes_error (fs : FS) :
    ∀ (ps : List FPath) (acc : List (String × String)) (p : FPath), p ∈ ps →
      (∀ bs, fs.file p ≠ FileState.content bs) →
      volumeEntryHashes fs ps acc = Except.error () := by
  intro ps
  induction ps with
  | nil => intro acc p hp; cases hp
  | cons q rest ih =>
      intro acc p hp hbad
      rcases List.mem_cons.mp hp with h | h
      · subst h
        unfold volumeEntryHashes get_file_sha256
        cases hf : fs.file p with
        | content bs => exact absurd hf (hbad bs)
        | absent => rfl
        | unreadable bs => rfl
      · unfold volumeEntryHashes
        cases hq : get_file_sha256 fs q with
        | error e => rfl
        | ok h0 => exact ih _ p h hbad

/-- Ordered-dict lemma: inserting a key makes it found with that value. -/
theorem dictFind_insert_self [DecidableEq κ] (k : κ) (v : α) :
    ∀ d : List (κ × α), dictFind k (dictInsert k v d) = some v := by
  intro d
  induction d with
  | nil => simp [dictInsert, dictFind]
  | cons kv rest ih =>
      unfold dictInsert
      by_cases h : kv.1 = k
      · simp [dictFind, h]
      · simp [dictFind, h, ih]

/-- Ordered-dict lemma: inserting another key leaves a lookup unchanged. -/
theorem dictFind_insert_ne [DecidableEq κ] (k k0 : κ) (v : α) (h : k0 ≠ k) :
    ∀ d : List (κ × α), dictFind k (dictInsert k0 v d) = dictFind k d := by
  intro d
  induction d with
  | nil => simp [dictInsert, dictFind, h]
  | cons kv rest ih =>
      unfold dictInsert
      by_cases hk : kv.1 = k0
      · simp [dictFind, hk, h]
      · simp only [if_neg hk, dictFind, ih]

/-- Lemma: the volume scan never records a file whose hashing failed. -/
theorem scan_unreadable (fs : FS) (ip : FPath) (filename : String)
    (hbad : ∀ bs, fs.file (ip ++ [filename]) ≠ FileState.content bs) :
    ∀ (L : List String) (acc : List (String × String)),
      dictFind filename (L.foldl (scanStep fs ip) acc) = dictFind filename acc := by
  intro L
  induction L with
  | nil => intro acc; rfl
  | cons a rest ih =>
      intro acc
      show dictFind filename (rest.foldl (scanStep fs ip) (scanStep fs ip acc a)) = _
      rw [ih]
      by_cases ha : a = filename
      · subst ha
        unfold scanStep GenerateHashes.get_file_sha256
        cases hf : fs.file (ip ++ [a]) with
        | content bs => exact absurd hf (hbad bs)
        | absent => by_cases hext : hasImageExt a <;> simp [hext]
        | unreadable bs => by_cases hext : hasImageExt a <;> simp [hext]
      · unfold scanStep
        by_cases hext : hasImageExt a
        · simp only [if_pos hext]
          cases GenerateHashes.get_file_sha256 fs (ip ++ [a]) with
          | none => rfl
          | some h0 => exact dictFind_insert_ne filename a h0 ha acc
        · simp only [if_neg hext]

/-- Lemma: a key never listed is never recorded by the scan fold. -/
theorem scan_notmem (fs : FS) (ip : FPath) (filename : String) :
    ∀ (L : List String) (acc : List (String × String)), filename ∉ L →
      dictFind filename (L.foldl (scanStep fs ip) acc) = dictFind filename acc := by
  intro L
  induction L with
  | nil => intro acc _; rfl
  | cons a rest ih =>
      intro acc hmem
      have ha : a ≠ filename := fun h => hmem (h ▸ List.mem_cons_self a rest)
      have hrest : filename ∉ rest := fun h => hmem (List.mem_cons_of_mem _ h)
      show dictFind filename (rest.foldl (scanStep fs ip) (scanStep fs ip acc a)) = _
      rw [ih _ hrest]
      unfold scanStep
      by_cases hext : hasImageExt a
      · simp only [if_pos hext]
        cases GenerateHashes.get_file_sha256 fs (ip ++ [a]) with
        | none => rfl
        | some h0 => exact dictFind_insert_ne filename a h0 ha acc
      · simp only [if_neg hext]

/-- Lemma: a listed, readable image file is recorded with its digest. -/
theorem scan_found (fs : FS) (ip : FPath) (filename : String) (bs : Bytes)
    (hext : hasImageExt filename = true)
    (hf : fs.file (ip ++ [filename]) = FileState.content bs) :
    ∀ (L : List String) (acc : List (String × String)), filename ∈ L →
      dictFind filename (L.foldl (scanStep fs ip) acc) = some (sha256hex bs) := by
  intro L
  induction L with
  | nil => intro acc h; cases h
  | cons a rest ih =>
      intro acc hmem
      show dictFind filename (rest.foldl (scanStep fs ip) (scanStep fs ip acc a)) = _
      by_cases hrest : filename ∈ rest
      · exact ih _ hrest
      · have ha : a = filename := by
          rcases List.mem_cons.mp hmem with h | h
          · exact h.symm
          · exact absurd h hrest
        subst ha
        rw [scan_notmem fs ip a rest _ hrest]
        unfold scanStep GenerateHashes.get_file_sha256
        rw [hf]
        simp only [if_pos hext]
        exact dictFind_insert_self a (sha256hex bs) acc

/-- Lemma: `buildHashes` raises as soon as any listed path is unreadable. -/
theorem buildHashes_error (fs : FS) :
    ∀ (data : ResolvedMap), (∃ vp ∈ data, ∃ p ∈ vp.2, ∀ bs, fs.file p ≠ FileState.content bs) →
      buildHashes fs data = Except.error () := by
  intro data
  induction data with
  | nil => rintro ⟨vp, hvp, _⟩; cases hvp
  | cons v0 rest ih =>
      rintro ⟨vp, hvp, p, hp, hbad⟩
      rcases List.mem_cons.mp hvp with h | h
      · subst h
        unfold buildHashes
        rw [volumeEntryHashes_error fs vp.2 [] p hp hbad]
      · unfold buildHashes
        cases volumeEntryHashes fs v0.2 [] with
        | error e => rfl
        | ok entries => rw [ih ⟨vp, h, p, hp, hbad⟩]

/-- C5 (amended): `save_hashes` propagates the read error of any
unreadable listed file (nothing is written); it is the standalone
generator (`generate_hashes_for_existing_downloads`) that omits files
whose hash computation fails while still recording every readable image
of the volume folder. -/
theorem save_hashes_unreadable_contract :
    (∀ fs hp data, (∃ vp ∈ data, ∃ p ∈ vp.2, ∀ bs, fs.file p ≠ FileState.content bs) →
        save_hashes fs hp data = Except.error ()) ∧
    (∀ fs ip filename, (∀ bs, fs.file (ip ++ [filename]) ≠ FileState.content bs) →
        dictFind filename (volumeScanHashes fs ip) = none) ∧
    (∀ fs ip filename bs, filename ∈ fs.listdir ip → hasImageExt filename = true →
        fs.file (ip ++ [filename]) = FileState.content bs →
        dictFind filename (volumeScanHashes fs ip) = some (sha256hex bs)) := by
  refine ⟨?_, ?_, ?_⟩
  · intro fs hp data hex
    unfold save_hashes
    rw [buildHashes_error fs data hex]
  · intro fs ip filename hbad
    unfold volumeScanHashes
    rw [scan_unreadable fs ip filename hbad]
    rfl
  · intro fs ip filename bs hmem hext hf
    unfold volumeScanHashes
    exact scan_found fs ip filename bs hext hf _ [] hmem

/-- A volume folder with one readable and one unreadable image. -/
def fsScan : FS :=
  { fsEmpty with
    file := fun p =>
      if p = ["v", "a.jpg"] then FileState.content [2]
      else if p = ["v", "b.jpg"] then FileState.unreadable [3]
      else FileState.absent,
    listdir := fun p => if p = ["v"] then ["a.jpg", "b.jpg"] else [] }

/-- C5 (witness): `save_hashes` raising on an unreadable path; the
generator omitting the unreadable image while recording the readable one. -/
theorem save_hashes_unreadable_contract_witness :
    save_hashes fsUnreadable [".hash"] [("v", [["img"]])] = Except.error () ∧
    dictFind "b.jpg" (volumeScanHashes fsScan ["v"]) = none ∧
    dictFind "a.jpg" (volumeScanHashes fsScan ["v"]) = some (sha256hex [2]) :=
  ⟨save_hashes_unreadable_contract.1 fsUnreadable [".hash"] [("v", [["img"]])]
      ⟨("v", [["img"]]), List.mem_singleton.mpr rfl, ["img"],
        List.mem_singleton.mpr rfl, fun _bs h => nomatch h⟩,
   save_hashes_unreadable_contract.2.1 fsScan ["v"] "b.jpg" (fun _bs h => nomatch h),
   save_hashes_unreadable_contract.2.2 fsScan ["v"] "a.jpg" [2]
      (by decide) rfl rfl⟩

/-- Joining one more component onto a path. -/
theorem path_join (dl : FPath) (a b : String) : (dl ++ [a]) ++ [b] = dl ++ [a, b] := by
  simp

/-- Lemma: the file loop of `check_hashes` only reads the listed files. -/
theorem checkVolumeFiles_congr (fs fs2 : FS) (vp : FPath) :
    ∀ files : List (String × String),
      (∀ fh ∈ files, fs2.file (vp ++ [fh.1]) = fs.file (vp ++ [fh.1])) →
      checkVolumeFiles fs2 vp files = checkVolumeFiles fs vp files := by
  intro files
  induction files with
  | nil => intro _; rfl
  | cons fh rest ih =>
      intro h
      have hf := h fh (List.mem_cons_self _ _)
      have hr := ih (fun fh2 hm => h fh2 (List.mem_cons_of_mem _ hm))
      unfold checkVolumeFiles pathExists get_file_sha256
      simp only [hf, hr]

/-- Lemma: the volume loop of `check_hashes` only reads the referenced
paths (and the directory flags). -/
theorem checkVolumes_congr (fs fs2 : FS) (dl : FPath)
    (hdir : ∀ v, fs2.isDir v = fs.isDir v) :
    ∀ L : Ledger, (∀ q ∈ refPaths dl L, fs2.file q = fs.file q) →
      checkVolumes fs2 dl L = checkVolumes fs dl L := by
  intro L
  induction L with
  | nil => intro _; rfl
  | cons vf rest ih =>
      intro h
      have hfiles : ∀ fh ∈ vf.2, fs2.file ((dl ++ [vf.1]) ++ [fh.1]) = fs.file ((dl ++ [vf.1]) ++ [fh.1]) := by
        intro fh hm
        apply h
        rw [path_join]
        unfold refPaths
        exact List.mem_flatMap.mpr ⟨vf, List.mem_cons_self _ _, List.mem_map.mpr ⟨fh, hm, rfl⟩⟩
      have hrest : ∀ q ∈ refPaths dl rest, fs2.file q = fs.file q := by
        intro q hq
        apply h
        unfold refPaths at hq ⊢
        rcases List.mem_flatMap.mp hq with ⟨vf2, hvf2, hq2⟩
        exact List.mem_flatMap.mpr ⟨vf2, List.mem_cons_of_mem _ hvf2, hq2⟩
      unfold checkVolumes
      simp only [hdir (dl ++ [vf.1]), checkVolumeFiles_congr fs fs2 (dl ++ [vf.1]) vf.2 hfiles,
        ih hrest]

/-- C10: `check_hashes` inspects only the ledger file, the volume
directory flags and the files the ledger lists; writing any file state at
a path the stored ledger does not reference (in particular adding a new
file to a volume directory) cannot change its result. -/
theorem check_hashes_ignores_unlisted (fs : FS) (p dl q : FPath) (st : FileState)
    (h : referencedInLedger fs p dl q = false) :
    check_hashes (setFile fs q st) p dl = check_hashes fs p dl := by
  unfold check_hashes
  have hhash : (setFile fs q st).hashFile = fs.hashFile := rfl
  rw [hhash]
  cases hh : fs.hashFile p with
  | none => rfl
  | some o =>
      cases o with
      | none => rfl
      | some L =>
          have hmem : q ∉ refPaths dl L := by
            unfold referencedInLedger at h
            rw [hh] at h
            exact of_decide_eq_false h
          have hcongr : ∀ q2 ∈ refPaths dl L, (setFile fs q st).file q2 = fs.file q2 := by
            intro q2 hq2
            unfold setFile
            have : q2 ≠ q := fun he => hmem (he ▸ hq2)
            simp [this]
          dsimp only
          rw [checkVolumes_congr fs (setFile fs q st) dl (fun _ => rfl) L hcongr]

/-- A consistent one-volume, one-file collection whose ledger matches. -/
def fsC1 : FS :=
  { file := fun p => if p = ["dl", "v", "a"] then FileState.content [0] else FileState.absent,
    isDir := fun p => decide (p = ["dl", "v"]),
    hashFile := fun p =>
      if p = [".hash"] then some (some [("v", [("a", sha256hex [0])])]) else none,
    listdir := fun _ => [] }

/-- C10 (witness): adding a new file `b` to the volume directory leaves
the validation result unchanged. -/
theorem check_hashes_ignores_unlisted_witness :
    check_hashes (setFile fsC1 ["dl", "v", "b"] (FileState.content [9])) [".hash"] ["dl"] =
      check_hashes fsC1 [".hash"] ["dl"] :=
  check_hashes_ignores_unlisted fsC1 [".hash"] ["dl"] ["dl", "v", "b"]
    (FileState.content [9]) (by decide)

/-- Lemma: a fully matching file loop resolves exactly the listed paths,
and every listed file's content hashes to its recorded fingerprint. -/
theorem checkVolumeFiles_true_spec (fs : FS) (vp : FPath) :
    ∀ (files : List (String × String)) (ps : List FPath),
      checkVolumeFiles fs vp files = Except.ok (true, ps) →
      ps = files.map (fun fh => vp ++ [fh.1]) ∧
      ∀ fh ∈ files, ∃ bs, fs.file (vp ++ [fh.1]) = FileState.content bs ∧ sha256hex bs = fh.2 := by
  intro files
  induction files with
  | nil =>
      intro ps h
      simp only [checkVolumeFiles, Except.ok.injEq, Prod.mk.injEq, true_and] at h
      exact ⟨h.symm, fun fh hm => absurd hm (List.not_mem_nil fh)⟩
  | cons fh rest ih =>
      intro ps h
      unfold checkVolumeFiles at h
      cases hf : fs.file (vp ++ [fh.1]) with
      | absent => simp [pathExists, hf] at h
      | unreadable bs => simp [pathExists, get_file_sha256, hf] at h
      | content bs =>
          simp only [pathExists, get_file_sha256, hf] at h
          by_cases heq : sha256hex bs = fh.2
          · rw [if_pos heq] at h
            cases hrec : checkVolumeFiles fs vp rest with
            | error e => rw [hrec] at h; simp at h
            | ok mp =>
                obtain ⟨m, ps0⟩ := mp
                rw [hrec] at h
                simp only [if_true, Except.ok.injEq, Prod.mk.injEq] at h
                obtain ⟨hm, hps⟩ := h
                subst hm
                obtain ⟨hmap, hall⟩ := ih ps0 hrec
                constructor
                · rw [← hps, hmap, List.map_cons]
                · intro fh2 hm2
                  rcases List.mem_cons.mp hm2 with h2 | h2
                  · subst h2; exact ⟨bs, hf, heq⟩
                  · exact hall fh2 h2
          · rw [if_neg heq] at h
            simp at h

/-- Lemma: a fully successful volume loop resolves the complete ledger. -/
theorem checkVolumes_some_spec (fs : FS) (dl : FPath) :
    ∀ (L : Ledger) (d : ResolvedMap), checkVolumes fs dl L = Except.ok (some d) →
      d = resolvedOf dl L ∧
      ∀ vf ∈ L, fs.isDir (dl ++ [vf.1]) = true ∧
        checkVolumeFiles fs (dl ++ [vf.1]) vf.2 =
          Except.ok (true, vf.2.map (fun fh => (dl ++ [vf.1]) ++ [fh.1])) := by
  intro L
  induction L with
  | nil =>
      intro d h
      simp only [checkVolumes, Except.ok.injEq, Option.some.injEq] at h
      exact ⟨h.symm, fun vf hm => absurd hm (List.not_mem_nil vf)⟩
  | cons vf rest ih =>
      intro d h
      unfold checkVolumes at h
      dsimp only at h
      cases hdir : fs.isDir (dl ++ [vf.1]) with
      | false => rw [hdir] at h; simp at h
      | true =>
          rw [hdir] at h
          cases hcf : checkVolumeFiles fs (dl ++ [vf.1]) vf.2 with
          | error e => rw [hcf] at h; simp at h
          | ok mp =>
              obtain ⟨m, ps⟩ := mp
              rw [hcf] at h
              cases m with
              | false => simp at h
              | true =>
                  cases hrec : checkVolumes fs dl rest with
                  | error e => rw [hrec] at h; simp at h
                  | ok o =>
                      cases o with
                      | none => rw [hrec] at h; simp at h
                      | some d0 =>
                          rw [hrec] at h
                          simp only [if_true, Except.ok.injEq, Option.some.injEq] at h
                          obtain ⟨hmap, _⟩ :=
                            checkVolumeFiles_true_spec fs (dl ++ [vf.1]) vf.2 ps hcf
                          obtain ⟨hd0, hall⟩ := ih d0 hrec
                          subst hmap hd0
                          constructor
                          · rw [← h]
                            simp only [resolvedOf, List.map_cons, path_join]
                          · intro vf2 hm2
                            rcases List.mem_cons.mp hm2 with h2 | h2
                            · subst h2; exact ⟨hdir, hcf⟩
                            · exact hall vf2 h2

/-- Lemma: overwriting one listed file with differently-hashing bytes
makes the file loop report a mismatch. -/
theorem checkVolumeFiles_mut (fs : FS) (vp q : FPath) (bs bs2 : Bytes)
    (hq : fs.file q = FileState.content bs) (hne : sha256hex bs2 ≠ sha256hex bs) :
    ∀ (files : List (String × String)) (ps : List FPath),
      checkVolumeFiles fs vp files = Except.ok (true, ps) →
      (∃ fh ∈ files, vp ++ [fh.1] = q) →
      ∃ ps2, checkVolumeFiles (setFile fs q (FileState.content bs2)) vp files =
        Except.ok (false, ps2) := by
  intro files
  induction files with
  | nil => rintro ps _ ⟨fh, hm, _⟩; cases hm
  | cons fh rest ih =>
      intro ps h hex
      obtain ⟨_, hall⟩ := checkVolumeFiles_true_spec fs vp (fh :: rest) ps h
      obtain ⟨bs0, hf0, hh0⟩ := hall fh (List.mem_cons_self _ _)
      by_cases hpq : vp ++ [fh.1] = q
      · -- the mutated file is the one this iteration checks
        have hbs0 : bs0 = bs := by
          rw [hpq] at hf0
          rw [hf0] at hq
          exact FileState.content.inj hq
        have hfile2 : (setFile fs q (FileState.content bs2)).file (vp ++ [fh.1]) =
            FileState.content bs2 := by
          unfold setFile
          simp [hpq]
        refine ⟨[], ?_⟩
        unfold checkVolumeFiles
        simp only [pathExists, get_file_sha256, hfile2, if_true]
        rw [if_neg (by rw [← hh0, hbs0]; exact hne)]
      · -- this iteration is untouched; the mismatch arises further on
        have hwit : ∃ fh2 ∈ rest, vp ++ [fh2.1] = q := by
          rcases hex with ⟨fh2, hm2, hq2⟩
          rcases List.mem_cons.mp hm2 with h2 | h2
          · subst h2; exact absurd hq2 hpq
          · exact ⟨fh2, h2, hq2⟩
        -- recover the success of the remaining entries from `h`
        unfold checkVolumeFiles at h
        simp only [pathExists, get_file_sha256, hf0, if_true] at h
        rw [if_pos hh0] at h
        cases hrec : checkVolumeFiles fs vp rest with
        | error e => rw [hrec] at h; simp at h
        | ok mp =>
            obtain ⟨m, ps0⟩ := mp
            rw [hrec] at h
            simp only [Except.ok.injEq, Prod.mk.injEq] at h
            obtain ⟨hm, _⟩ := h
            subst hm
            obtain ⟨ps2, hmut⟩ := ih ps0 hrec hwit
            have hfile2 : (setFile fs q (FileState.content bs2)).file (vp ++ [fh.1]) =
                FileState.content bs0 := by
              unfold setFile
              simp only [if_neg hpq]
              exact hf0
            refine ⟨(vp ++ [fh.1]) :: ps2, ?_⟩
            unfold checkVolumeFiles
            simp only [pathExists, get_file_sha256, hfile2, if_true]
            rw [if_pos hh0, hmut]

/-- Lemma: membership in the referenced paths of a cons ledger. -/
theorem refPaths_cons (dl : FPath) (vf : String × List (String × String)) (rest : Ledger) (q : FPath) :
    q ∈ refPaths dl (vf :: rest) ↔
      (∃ fh ∈ vf.2, (dl ++ [vf.1]) ++ [fh.1] = q) ∨ q ∈ refPaths dl rest := by
  unfold refPaths
  constructor
  · intro h
    rcases List.mem_flatMap.mp h with ⟨vf2, hvf2, hq2⟩
    rcases List.mem_cons.mp hvf2 with h2 | h2
    · subst h2
      rcases List.mem_map.mp hq2 with ⟨fh, hfh, hfq⟩
      exact Or.inl ⟨fh, hfh, by rw [path_join]; exact hfq⟩
    · exact Or.inr (List.mem_flatMap.mpr ⟨vf2, h2, hq2⟩)
  · intro h
    rcases h with ⟨fh, hfh, hfq⟩ | h
    · refine List.mem_flatMap.mpr ⟨vf, List.mem_cons_self _ _, List.mem_map.mpr ⟨fh, hfh, ?_⟩⟩
      rw [← path_join]
      exact hfq
    · rcases List.mem_flatMap.mp h with ⟨vf2, hvf2, hq2⟩
      exact List.mem_flatMap.mpr ⟨vf2, List.mem_cons_of_mem _ hvf2, hq2⟩

/-- Lemma: after overwriting one referenced file with differently-hashing
bytes, a previously fully successful volume loop reports failure. -/
theorem checkVolumes_mut (fs : FS) (dl q : FPath) (bs bs2 : Bytes)
    (hq : fs.file q = FileState.content bs) (hne : sha256hex bs2 ≠ sha256hex bs) :
    ∀ (L : Ledger) (d : ResolvedMap), checkVolumes fs dl L = Except.ok (some d) →
      q ∈ refPaths dl L →
      checkVolumes (setFile fs q (FileState.content bs2)) dl L = Except.ok none := by
  intro L
  induction L with
  | nil => intro d _ hq2; cases hq2
  | cons vf rest ih =>
      intro d h hmem
      obtain ⟨_, hall⟩ := checkVolumes_some_spec fs dl (vf :: rest) d h
      obtain ⟨hdir, hcf⟩ := hall vf (List.mem_cons_self _ _)
      have hdir2 : (setFile fs q (FileState.content bs2)).isDir (dl ++ [vf.1]) = true := hdir
      -- recover the success of the remaining volumes from `h`
      unfold checkVolumes at h
      dsimp only at h
      rw [hdir] at h
      rw [hcf] at h
      cases hrec : checkVolumes fs dl rest with
      | error e => rw [hrec] at h; simp at h
      | ok o =>
          cases o with
          | none => rw [hrec] at h; simp at h
          | some d0 =>
              by_cases hvol : ∃ fh ∈ vf.2, (dl ++ [vf.1]) ++ [fh.1] = q
              · obtain ⟨ps2, hmut⟩ :=
                  checkVolumeFiles_mut fs (dl ++ [vf.1]) q bs bs2 hq hne vf.2 _ hcf hvol
                unfold checkVolumes
                dsimp only
                rw [hdir2, if_pos rfl, hmut]
              · have hcongr : ∀ fh ∈ vf.2,
                    (setFile fs q (FileState.content bs2)).file ((dl ++ [vf.1]) ++ [fh.1]) =
                      fs.file ((dl ++ [vf.1]) ++ [fh.1]) := by
                  intro fh hfh
                  unfold setFile
                  dsimp only
                  rw [if_neg (fun he => hvol ⟨fh, hfh, he⟩)]
                have hcf2 : checkVolumeFiles (setFile fs q (FileState.content bs2))
                    (dl ++ [vf.1]) vf.2 = Except.ok (true, vf.2.map (fun fh => (dl ++ [vf.1]) ++ [fh.1])) := by
                  rw [checkVolumeFiles_congr fs (setFile fs q (FileState.content bs2))
                    (dl ++ [vf.1]) vf.2 hcongr]
                  exact hcf
                have hmem2 : q ∈ refPaths dl rest := by
                  rcases (refPaths_cons dl vf rest q).mp hmem with h2 | h2
                  · exact absurd h2 hvol
                  · exact h2
                unfold checkVolumes
                dsimp only
                rw [hdir2, if_pos rfl, hcf2, ih d0 hrec hmem2]

/-- C1: `check_hashes` is all-or-nothing.  A returned result is either
`(False, None)` — never `False` with a partial resource set — or `(True,
resources)` with the complete resource set of the stored ledger; and if a
referenced file of a fully validated collection is overwritten with bytes
whose digest differs (as any one-byte change does for SHA-256), re-running
validation yields `(False, None)` for the entire collection. -/
theorem check_hashes_all_or_nothing :
    (∀ fs p dl b r, check_hashes fs p dl = Except.ok (b, r) →
        (b = false ∧ r = none) ∨
        (b = true ∧ ∃ L, fs.hashFile p = some (some L) ∧ r = some (resolvedOf dl L))) ∧
    (∀ fs p dl d q bs bs2, check_hashes fs p dl = Except.ok (true, some d) →
        referencedInLedger fs p dl q = true →
        fs.file q = FileState.content bs →
        sha256hex bs2 ≠ sha256hex bs →
        check_hashes (setFile fs q (FileState.content bs2)) p dl =
          Except.ok (false, none)) := by
  constructor
  · intro fs p dl b r h
    unfold check_hashes at h
    cases hh : fs.hashFile p with
    | none =>
        rw [hh] at h
        simp only [Except.ok.injEq, Prod.mk.injEq] at h
        exact Or.inl ⟨h.1.symm, h.2.symm⟩
    | some o =>
        cases o with
        | none => rw [hh] at h; simp at h
        | some L =>
            rw [hh] at h
            dsimp only at h
            cases hcv : checkVolumes fs dl L with
            | error e => rw [hcv] at h; simp at h
            | ok o2 =>
                cases o2 with
                | none =>
                    rw [hcv] at h
                    simp only [Except.ok.injEq, Prod.mk.injEq] at h
                    exact Or.inl ⟨h.1.symm, h.2.symm⟩
                | some d =>
                    rw [hcv] at h
                    simp only [Except.ok.injEq, Prod.mk.injEq] at h
                    obtain ⟨hd, _⟩ := checkVolumes_some_spec fs dl L d hcv
                    exact Or.inr ⟨h.1.symm, L, rfl, by rw [← h.2, hd]⟩
  · intro fs p dl d q bs bs2 h href hq hne
    unfold check_hashes at h
    cases hh : fs.hashFile p with
    | none => rw [hh] at h; simp at h
    | some o =>
        cases o with
        | none => rw [hh] at h; simp at h
        | some L =>
            rw [hh] at h
            dsimp only at h
            cases hcv : checkVolumes fs dl L with
            | error e => rw [hcv] at h; simp at h
            | ok o2 =>
                cases o2 with
                | none => rw [hcv] at h; simp at h
                | some d0 =>
                    have hmem : q ∈ refPaths dl L := by
                      unfold referencedInLedger at href
                      rw [hh] at href
                      exact of_decide_eq_true href
                    have hmut := checkVolumes_mut fs dl q bs bs2 hq hne L d0 hcv hmem
                    unfold check_hashes
                    have hhash2 : (setFile fs q (FileState.content bs2)).hashFile p =
                        some (some L) := hh
                    rw [hhash2]
                    dsimp only
                    rw [hmut]

/-- C1 (witness): a validated one-file collection; overwriting that file's
byte `0` with byte `1` makes re-validation fail for the whole collection. -/
theorem check_hashes_all_or_nothing_witness :
    check_hashes (setFile fsC1 ["dl", "v", "a"] (FileState.content [1])) [".hash"] ["dl"] =
      Except.ok (false, none) :=
  check_hashes_all_or_nothing.2 fsC1 [".hash"] ["dl"] [("v", [["dl", "v", "a"]])]
    ["dl", "v", "a"] [0] [1] rfl rfl rfl (by decide)

/-- The digest `save_hashes` records for a readable path. -/
def fileHash (fs : FS) (p : FPath) : String :=
  match fs.file p with
  | FileState.content bs => sha256hex bs
  | _ => ""

/-- Ordered-dict lemma: inserting a fresh key appends it. -/
theorem dictInsert_append [DecidableEq κ] (k : κ) (v : α) :
    ∀ d : List (κ × α), (∀ kv ∈ d, kv.1 ≠ k) → dictInsert k v d = d ++ [(k, v)] := by
  intro d
  induction d with
  | nil => intro _; rfl
  | cons kv rest ih =>
      intro h
      unfold dictInsert
      rw [if_neg (h kv (List.mem_cons_self _ _)), ih (fun kv2 hm => h kv2 (List.mem_cons_of_mem _ hm))]
      rfl

/-- Lemma: with readable files and fresh basenames, the inner dict
comprehension of `save_hashes` records every path's digest in order. -/
theorem volumeEntryHashes_spec (fs : FS) :
    ∀ (ps : List FPath) (acc : List (String × String)),
      (∀ p ∈ ps, ∃ bs, fs.file p = FileState.content bs) →
      (acc.map Prod.fst ++ ps.map basename).Nodup →
      volumeEntryHashes fs ps acc =
        Except.ok (acc ++ ps.map (fun p => (basename p, fileHash fs p))) := by
  intro ps
  induction ps with
  | nil => intro acc _ _; simp [volumeEntryHashes]
  | cons p rest ih =>
      intro acc hread hnd
      obtain ⟨bs, hbs⟩ := hread p (List.mem_cons_self _ _)
      have hget : get_file_sha256 fs p = Except.ok (fileHash fs p) := by
        unfold get_file_sha256 fileHash
        rw [hbs]
      unfold volumeEntryHashes
      rw [hget]
      dsimp only
      have hbp : basename p ∉ acc.map Prod.fst := by
        rcases List.nodup_append.mp (by simpa using hnd) with ⟨_, _, hdisj⟩
        exact fun hin => hdisj hin (List.mem_cons_self _ _)
      have hnotin : ∀ kv ∈ acc, kv.1 ≠ basename p :=
        fun kv hkv he => hbp (he ▸ List.mem_map_of_mem Prod.fst hkv)
      rw [dictInsert_append (basename p) (fileHash fs p) acc hnotin]
      have hnd2 : ((acc ++ [(basename p, fileHash fs p)]).map Prod.fst ++ rest.map basename).Nodup := by
        have h2 := hnd
        rw [List.map_cons, List.append_cons] at h2
        simpa using h2
      rw [ih (acc ++ [(basename p, fileHash fs p)])
        (fun p2 hm => hread p2 (List.mem_cons_of_mem _ hm)) hnd2]
      simp

/-- Lemma: `buildHashes` on readable data writes the full ledger. -/
theorem buildHashes_spec (fs : FS) :
    ∀ data : ResolvedMap,
      (∀ vp ∈ data, (vp.2.map basename).Nodup ∧
        ∀ p ∈ vp.2, ∃ bs, fs.file p = FileState.content bs) →
      buildHashes fs data =
        Except.ok (data.map (fun vp =>
          (vp.1, vp.2.map (fun p => (basename p, fileHash fs p))))) := by
  intro data
  induction data with
  | nil => intro _; rfl
  | cons vp rest ih =>
      intro h
      obtain ⟨hnd, hread⟩ := h vp (List.mem_cons_self _ _)
      unfold buildHashes
      rw [volumeEntryHashes_spec fs vp.2 [] hread (by simpa using hnd)]
      rw [ih (fun vp2 hm => h vp2 (List.mem_cons_of_mem _ hm))]
      rfl

/-- Lemma: validating the entries just recorded for one volume succeeds
and resolves exactly the original paths. -/
theorem checkVolumeFiles_roundtrip (fs fs2 : FS) (dl : FPath) (v : String)
    (hfile : fs2.file = fs.file) :
    ∀ ps : List FPath,
      (∀ p ∈ ps, p = dl ++ [v, basename p] ∧ ∃ bs, fs.file p = FileState.content bs) →
      checkVolumeFiles fs2 (dl ++ [v]) (ps.map (fun p => (basename p, fileHash fs p))) =
        Except.ok (true, ps) := by
  intro ps
  induction ps with
  | nil => intro _; rfl
  | cons p rest ih =>
      intro h
      obtain ⟨hlay, bs, hbs⟩ := h p (List.mem_cons_self _ _)
      have hfp : (dl ++ [v]) ++ [basename p] = p := by
        rw [path_join]
        exact hlay.symm
      have hfh : fileHash fs p = sha256hex bs := by
        unfold fileHash
        rw [hbs]
      rw [List.map_cons]
      unfold checkVolumeFiles
      dsimp only
      rw [hfp]
      simp only [pathExists, get_file_sha256, hfile, hbs, if_true, hfh]
      rw [ih (fun p2 hm => h p2 (List.mem_cons_of_mem _ hm))]

/-- Lemma: validating the whole just-saved ledger succeeds and resolves
the original resource map. -/
theorem checkVolumes_roundtrip (fs fs2 : FS) (dl : FPath)
    (hfile : fs2.file = fs.file) (hdir : fs2.isDir = fs.isDir) :
    ∀ data : ResolvedMap,
      (∀ vp ∈ data, fs.isDir (dl ++ [vp.1]) = true ∧
        ∀ p ∈ vp.2, p = dl ++ [vp.1, basename p] ∧ ∃ bs, fs.file p = FileState.content bs) →
      checkVolumes fs2 dl (data.map (fun vp =>
          (vp.1, vp.2.map (fun p => (basename p, fileHash fs p))))) =
        Except.ok (some data) := by
  intro data
  induction data with
  | nil => intro _; rfl
  | cons vp rest ih =>
      intro h
      obtain ⟨hd, hps⟩ := h vp (List.mem_cons_self _ _)
      rw [List.map_cons]
      unfold checkVolumes
      dsimp only
      rw [hdir, hd]
      rw [if_pos rfl, checkVolumeFiles_roundtrip fs fs2 dl vp.1 hfile vp.2 hps,
        ih (fun vp2 hm => h vp2 (List.mem_cons_of_mem _ hm))]

/-- C2 (amended): saving a ledger and immediately re-validating it
succeeds with exactly the saved paths, provided the data is a genuine
map (distinct volume names), each volume's directory exists under the
base directory, each listed path lies in that directory under its
basename, basenames are distinct within a volume, and every file is
readable. -/
theorem save_then_check_round_trip (fs : FS) (hp dl : FPath) (data : ResolvedMap)
    (_hkeys : (data.map Prod.fst).Nodup)
    (hvols : ∀ vp ∈ data, fs.isDir (dl ++ [vp.1]) = true ∧ (vp.2.map basename).Nodup ∧
        ∀ pth ∈ vp.2, pth = dl ++ [vp.1, basename pth] ∧
          ∃ bs, fs.file pth = FileState.content bs) :
    ∃ fs2, save_hashes fs hp data = Except.ok fs2 ∧
      check_hashes fs2 hp dl = Except.ok (true, some data) := by
  have hread : ∀ vp ∈ data, (vp.2.map basename).Nodup ∧
      ∀ p ∈ vp.2, ∃ bs, fs.file p = FileState.content bs :=
    fun vp hm => ⟨(hvols vp hm).2.1, fun p hp2 => ((hvols vp hm).2.2 p hp2).2⟩
  refine ⟨writeHashFile fs hp (data.map (fun vp =>
    (vp.1, vp.2.map (fun p => (basename p, fileHash fs p))))), ?_, ?_⟩
  · unfold save_hashes
    rw [buildHashes_spec fs data hread]
  · unfold check_hashes
    have hh : (writeHashFile fs hp (data.map (fun vp =>
        (vp.1, vp.2.map (fun p => (basename p, fileHash fs p)))))).hashFile hp =
        some (some (data.map (fun vp =>
          (vp.1, vp.2.map (fun p => (basename p, fileHash fs p)))))) := by
      unfold writeHashFile
      dsimp only
      rw [if_pos rfl]
    rw [hh]
    dsimp only
    rw [checkVolumes_roundtrip fs (writeHashFile fs hp (data.map (fun vp =>
        (vp.1, vp.2.map (fun p => (basename p, fileHash fs p)))))) dl rfl rfl data
      (fun vp hm => ⟨(hvols vp hm).1, (hvols vp hm).2.2⟩)]

/-- The filesystem state after the counterexample save. -/
def fsC2saved : FS := writeHashFile fsEmpty [".hash"] [("v", [])]

/-- C2 (counterexample): a map sending volume `v` to an empty list of
readable paths saves fine, but validation then fails `(False, None)` —
not `(True, {v: []})` as the claim requires — because the volume
directory does not exist. -/
theorem save_then_check_round_trip_cex :
    save_hashes fsEmpty [".hash"] [("v", [])] = Except.ok fsC2saved ∧
    check_hashes fsC2saved [".hash"] ["dl"] = Except.ok (false, none) :=
  ⟨rfl, rfl⟩

/-- C2 (witness): a properly laid out one-volume, one-file map
round-trips to `(True, itself)`. -/
theorem save_then_check_round_trip_witness :
    ∃ fs2, save_hashes fsC1 [".hash2"] [("v", [["dl", "v", "a"]])] = Except.ok fs2 ∧
      check_hashes fs2 [".hash2"] ["dl"] =
        Except.ok (true, some [("v", [["dl", "v", "a"]])]) :=
  save_then_check_round_trip fsC1 [".hash2"] ["dl"] [("v", [["dl", "v", "a"]])]
    (by decide)
    (by
      intro vp hm
      have hv := List.mem_singleton.mp hm
      subst hv
      refine ⟨rfl, by decide, ?_⟩
      intro pth hp
      have hpth := List.mem_singleton.mp hp
      subst hpth
      exact ⟨rfl, [0], rfl⟩)

/-- C7: the text preceding the first chapter boundary of a volume is
prepended to the first detected chapter's body only: the first chapter's
content is built from `intro ++ own body`, and every later chapter is
built from its own body alone — the tail of the chapter list does not
depend on the intro text at all. -/
theorem intro_prepended_first_only :
    (∀ intro vidx t s subs,
        buildSubChapters intro vidx ((t, s) :: subs) =
          { title := pyStrip t,
            fileName := "vol_" ++ toString vidx ++ "_chap_" ++ toString 1 ++ ".xhtml",
            content := "<h1>" ++ pyStrip t ++ "</h1>" ++ paragraphsHtml (intro ++ pyStrip s) }
            :: buildSubChaptersFrom intro vidx 2 subs) ∧
    (∀ intro intro2 vidx subs i, 2 ≤ i →
        buildSubChaptersFrom intro vidx i subs = buildSubChaptersFrom intro2 vidx i subs) := by
  constructor
  · intro intro vidx t s subs
    rfl
  · intro intro intro2 vidx subs
    induction subs with
    | nil => intro i _; rfl
    | cons ts rest ih =>
        intro i hi
        have hne : i ≠ 1 := by omega
        unfold buildSubChaptersFrom
        rw [if_neg hne, if_neg hne, ih (i + 1) (by omega)]

/-- C7 (witness): with two chapters, changing the intro text changes only
the first chapter; the tails coincide for two different intros. -/
theorem intro_prepended_first_only_witness :
    buildSubChapters "INTRO" 1 [("第一章 A", "a"), ("第二章 B", "b")] =
      { title := "第一章 A", fileName := "vol_1_chap_1.xhtml",
        content := "<h1>第一章 A</h1>" ++ paragraphsHtml ("INTRO" ++ "a") }
        :: buildSubChaptersFrom "INTRO" 1 2 [("第二章 B", "b")] ∧
    buildSubChaptersFrom "INTRO" 1 2 [("第二章 B", "b")] =
      buildSubChaptersFrom "OTHER" 1 2 [("第二章 B", "b")] :=
  ⟨intro_prepended_first_only.1 "INTRO" 1 "第一章 A" "a" [("第二章 B", "b")],
   intro_prepended_first_only.2 "INTRO" "OTHER" 1 [("第二章 B", "b")] 2 (by decide)⟩

/-- Lemma: one volume-loop iteration appends exactly the volume's
illustration page and chapters to the spine, its TOC delta to the TOC,
and updates the pending-illustration map. -/
theorem stepVolume_delta (items : List (FPath × String))
    (s : List SpineItem) (t : List TocEntry) (m : ResolvedMap)
    (idx : Nat) (a b : String) :
    stepVolume items (s, t, m) idx a b =
      (s ++ (volumeIllustPage items idx m (pyStrip a)).1
         ++ (volumeChapters idx (pyStrip a) (stripIllustLines (pyStrip b))).map SpineItem.html,
       t ++ volumeTocDelta idx (pyStrip a) (stripIllustLines (pyStrip b)),
       (volumeIllustPage items idx m (pyStrip a)).2) := by
  unfold stepVolume volumeIllustPage volumeChapters volumeTocDelta
  dsimp only
  cases hfind : dictFind (get_core_volume_name (pyStrip a)) m with
  | none =>
      dsimp only
      by_cases hsub : (partsOf isChapterHeading (stripIllustLines (pyStrip b))).2.isEmpty
      · rw [if_pos hsub, if_pos hsub, if_pos hsub]
        by_cases hne : pyStrip (stripIllustLines (pyStrip b)) ≠ ""
        · rw [if_pos hne, if_pos hne, if_pos hne]
          simp [List.append_assoc]
        · rw [if_neg hne, if_neg hne, if_neg hne]
          simp
      · rw [if_neg hsub, if_neg hsub, if_neg hsub]
        by_cases hch : (buildSubChapters
            (pyStrip (partsOf isChapterHeading (stripIllustLines (pyStrip b))).1) idx
            (partsOf isChapterHeading (stripIllustLines (pyStrip b))).2).isEmpty
        · rw [if_pos hch, if_pos hch]
          simp [List.isEmpty_iff.mp hch]
        · rw [if_neg hch, if_neg hch]
          simp [List.append_assoc]
  | some image_paths =>
      dsimp only
      by_cases hparts : (image_paths.filterMap (fun p =>
          (dictFind p items).map (fun fn =>
            "<div class=\"illustration\"><img src=\"" ++ fn ++ "\" alt=\"插图\"/></div>"))).isEmpty
      · rw [if_pos hparts, if_pos hparts]
        dsimp only
        by_cases hsub : (partsOf isChapterHeading (stripIllustLines (pyStrip b))).2.isEmpty
        · rw [if_pos hsub, if_pos hsub, if_pos hsub]
          by_cases hne : pyStrip (stripIllustLines (pyStrip b)) ≠ ""
          · rw [if_pos hne, if_pos hne, if_pos hne]
            simp [List.append_assoc]
          · rw [if_neg hne, if_neg hne, if_neg hne]
            simp
        · rw [if_neg hsub, if_neg hsub, if_neg hsub]
          by_cases hch : (buildSubChapters
              (pyStrip (partsOf isChapterHeading (stripIllustLines (pyStrip b))).1) idx
              (partsOf isChapterHeading (stripIllustLines (pyStrip b))).2).isEmpty
          · rw [if_pos hch, if_pos hch]
            simp [List.isEmpty_iff.mp hch]
          · rw [if_neg hch, if_neg hch]
            try simp [List.append_assoc]
      · rw [if_neg hparts, if_neg hparts]
        dsimp only
        by_cases hsub : (partsOf isChapterHeading (stripIllustLines (pyStrip b))).2.isEmpty
        · rw [if_pos hsub, if_pos hsub, if_pos hsub]
          by_cases hne : pyStrip (stripIllustLines (pyStrip b)) ≠ ""
          · rw [if_pos hne, if_pos hne, if_pos hne]
            simp [List.append_assoc]
          · rw [if_neg hne, if_neg hne, if_neg hne]
            simp
        · rw [if_neg hsub, if_neg hsub, if_neg hsub]
          by_cases hch : (buildSubChapters
              (pyStrip (partsOf isChapterHeading (stripIllustLines (pyStrip b))).1) idx
              (partsOf isChapterHeading (stripIllustLines (pyStrip b))).2).isEmpty
          · rw [if_pos hch, if_pos hch]
            simp [List.isEmpty_iff.mp hch]
          · rw [if_neg hch, if_neg hch]
            try simp [List.append_assoc]

/-- Lemma: the volume loop is the initial state extended by the
compositional per-volume contributions. -/
theorem volumeLoop_spec (items : List (FPath × String)) :
    ∀ (pairs : List (String × String)) (s : List SpineItem) (t : List TocEntry)
      (m : ResolvedMap) (idx : Nat),
      volumeLoop items (s, t, m) idx pairs =
        (s ++ specVolumeSpine items idx m pairs,
         t ++ specVolumeToc items idx m pairs,
         specVolumeMap items idx m pairs) := by
  intro pairs
  induction pairs with
  | nil =>
      intro s t m idx
      simp [volumeLoop, specVolumeSpine, specVolumeToc, specVolumeMap]
  | cons vt rest ih =>
      intro s t m idx
      show volumeLoop items (stepVolume items (s, t, m) idx vt.1 vt.2) (idx + 1) rest = _
      rw [stepVolume_delta, ih]
      simp only [specVolumeSpine, specVolumeToc, specVolumeMap]
      simp [List.append_assoc]

/-- C8: the assembled reading order is exactly: the cover page when a
cover was supplied and readable, the navigation placeholder, the synopsis
page, the prologue page when the pre-boundary text is non-blank, then for
each volume in source order its illustration page (when its core name had
pending illustrations and at least one image resource resolved) followed
by its chapters in source order. -/
theorem create_epub_spine_order (fs : FS) (md : Metadata) (content : String)
    (data : ResolvedMap) (cover : Option FPath) :
    (createEpub fs md content data cover).spine =
      optSpine (coverPageOf fs cover) ++ [SpineItem.nav] ++ [SpineItem.html (synopsisPage md)]
        ++ optSpine (prologuePageOf
            (partsOf (isVolumeBoundaryLine (data.map Prod.fst)) content).1)
        ++ specVolumeSpine (illustrationItems fs data) 1 (buildCoreMap data)
            (partsOf (isVolumeBoundaryLine (data.map Prod.fst)) content).2 := by
  unfold createEpub
  dsimp only
  rw [volumeLoop_spec]
  try simp [List.append_assoc]

/-- Lemma: the assembled table of contents is the synopsis link, the
prologue entry when present, then the per-volume TOC contributions. -/
theorem create_epub_toc_order (fs : FS) (md : Metadata) (content : String)
    (data : ResolvedMap) (cover : Option FPath) :
    (createEpub fs md content data cover).toc =
      [TocEntry.link "synopsis.xhtml" "简介" "synopsis"]
        ++ optTocItem (prologuePageOf
            (partsOf (isVolumeBoundaryLine (data.map Prod.fst)) content).1)
        ++ specVolumeToc (illustrationItems fs data) 1 (buildCoreMap data)
            (partsOf (isVolumeBoundaryLine (data.map Prod.fst)) content).2 := by
  unfold createEpub
  dsimp only
  rw [volumeLoop_spec]
  try simp [List.append_assoc]

/-- Lemma: a volume among the parsed pairs whose processed body has no
chapter boundary and is non-blank contributes its fallback chapter as a
standalone TOC entry. -/
theorem specVolumeToc_fallback_mem (items : List (FPath × String)) :
    ∀ (pairs : List (String × String)) (idx : Nat) (m : ResolvedMap) (vt vtext : String),
      (vt, vtext) ∈ pairs →
      (partsOf isChapterHeading (stripIllustLines (pyStrip vtext))).2 = [] →
      pyStrip (stripIllustLines (pyStrip vtext)) ≠ "" →
      ∃ j, TocEntry.item (fallbackChapter (pyStrip vt) (stripIllustLines (pyStrip vtext)) j)
        ∈ specVolumeToc items idx m pairs := by
  intro pairs
  induction pairs with
  | nil => intro idx m vt vtext hm; cases hm
  | cons hd rest ih =>
      intro idx m vt vtext hm hsub hne
      simp only [specVolumeToc]
      rcases List.mem_cons.mp hm with h | h
      · refine ⟨idx, List.mem_append.mpr (Or.inl ?_)⟩
        rw [← h]
        unfold volumeTocDelta
        dsimp only
        rw [hsub]
        simp only [List.isEmpty_nil, if_true]
        rw [if_pos hne]
        exact List.mem_singleton.mpr rfl
      · obtain ⟨j, hj⟩ := ih (idx + 1) (volumeIllustPage items idx m (pyStrip hd.1)).2 vt vtext h hsub hne
        exact ⟨j, List.mem_append.mpr (Or.inr hj)⟩

/-- C6 (amended): a volume whose body — after the illustration-marker
lines are blanked — contains zero chapter boundaries and is still
non-blank becomes exactly one chapter (title the volume heading, content
the `<h1>` heading plus one paragraph per non-blank line not equal to the
title), and that chapter appears as a standalone entry of the overall
table of contents. -/
theorem volume_fallback_single_chapter :
    (∀ idx title text, (partsOf isChapterHeading text).2 = [] → pyStrip text ≠ "" →
        volumeChapters idx title text = [fallbackChapter title text idx]) ∧
    (∀ fs md content data cover vt vtext,
        (vt, vtext) ∈ (partsOf (isVolumeBoundaryLine (data.map Prod.fst)) content).2 →
        (partsOf isChapterHeading (stripIllustLines (pyStrip vtext))).2 = [] →
        pyStrip (stripIllustLines (pyStrip vtext)) ≠ "" →
        ∃ j, TocEntry.item (fallbackChapter (pyStrip vt) (stripIllustLines (pyStrip vtext)) j)
          ∈ (createEpub fs md content data cover).toc) := by
  constructor
  · intro idx title text hsub hne
    unfold volumeChapters
    dsimp only
    rw [hsub]
    simp only [List.isEmpty_nil, if_true]
    rw [if_pos hne]
  · intro fs md content data cover vt vtext hm hsub hne
    rw [create_epub_toc_order]
    obtain ⟨j, hj⟩ := specVolumeToc_fallback_mem (illustrationItems fs data) _ 1
      (buildCoreMap data) vt vtext hm hsub hne
    exact ⟨j, List.mem_append.mpr (Or.inr hj)⟩

/-- The metadata used by segmentation fixtures. -/
def mdE : Metadata := { author := "A", synopsis := "S" }

/-- C6 (counterexample): the volume body `一些插图页面` is non-blank and
contains no chapter boundary, yet — because the line mentions 插图 and is
blanked before the fallback check — the book gets no chapter at all for
it: the TOC holds only the synopsis link and the spine only the
navigation placeholder and synopsis page. -/
theorem volume_fallback_cex :
    pyStrip "一些插图页面" ≠ "" ∧
    (partsOf isChapterHeading "一些插图页面").2 = [] ∧
    (partsOf (isVolumeBoundaryLine ([] : List String)) "第一卷 X\n一些插图页面").2 =
      [("第一卷 X", "一些插图页面")] ∧
    (createEpub fsEmpty mdE "第一卷 X\n一些插图页面" [] none).toc =
      [TocEntry.link "synopsis.xhtml" "简介" "synopsis"] ∧
    (createEpub fsEmpty mdE "第一卷 X\n一些插图页面" [] none).spine =
      [SpineItem.nav, SpineItem.html (synopsisPage mdE)] :=
  ⟨by decide, rfl, rfl, rfl, rfl⟩

/-- C6 (witness): a boundary-free, non-blank volume body yields exactly
the fallback chapter, present in the overall TOC. -/
theorem volume_fallback_single_chapter_witness :
    volumeChapters 1 "第一卷 X" "hello" = [fallbackChapter "第一卷 X" "hello" 1] ∧
    ∃ j, TocEntry.item (fallbackChapter "第一卷 X" "hello" j)
      ∈ (createEpub fsEmpty mdE "第一卷 X\nhello" [] none).toc :=
  ⟨volume_fallback_single_chapter.1 1 "第一卷 X" "hello" rfl (by decide),
   volume_fallback_single_chapter.2 fsEmpty mdE "第一卷 X\nhello" [] none "第一卷 X" "hello"
     (by decide) rfl (by decide)⟩

/-- C9: `download_txt` succeeds exactly when the response is non-error
with body longer than 100 bytes — in which case the body is written —
and returns the sentinel `False` (never raising) otherwise, leaving the
filesystem untouched; the caller tries node 1 first, consults node 2 only
when node 1 fails, and on such a failure the stage is exactly the node-2
attempt. -/
theorem txt_download_contract :
    (∀ net id node p fs, (download_txt net id node p fs).1 = true ↔
        ∃ r, net (txtUrl node id) = some r ∧ r.ok = true ∧ 100 < r.content.length) ∧
    (∀ net id node p fs r, net (txtUrl node id) = some r → r.ok = true →
        100 < r.content.length →
        download_txt net id node p fs = (true, writeFile fs p r.content)) ∧
    (∀ net id node p fs, (download_txt net id node p fs).1 = false →
        (download_txt net id node p fs).2 = fs) ∧
    (∀ net net2 fs id p, net2 (txtUrl 1 id) = net (txtUrl 1 id) →
        (download_txt net id 1 p fs).1 = true →
        txtStage net fs id p = txtStage net2 fs id p) ∧
    (∀ net fs id p, (pathExists fs p && decide (100 < fileSize fs p)) = false →
        (download_txt net id 1 p fs).1 = false →
        txtStage net fs id p = download_txt net id 2 p fs) := by
  have hdl : ∀ (net : Network) id node p fs,
      download_txt net id node p fs =
        match net (txtUrl node id) with
        | none => (false, fs)
        | some r =>
            if r.ok && decide (100 < r.content.length) then (true, writeFile fs p r.content)
            else (false, fs) := fun _ _ _ _ _ => rfl
  have hkeep : ∀ (net : Network) id node p fs, (download_txt net id node p fs).1 = false →
      (download_txt net id node p fs).2 = fs := by
    intro net id node p fs hfail
    rw [hdl] at hfail ⊢
    cases hr : net (txtUrl node id) with
    | none => rfl
    | some r =>
        rw [hr] at hfail
        dsimp only at hfail ⊢
        by_cases hok : r.ok && decide (100 < r.content.length)
        · rw [if_pos hok] at hfail
          cases hfail
        · rw [if_neg hok]
  refine ⟨?_, ?_, hkeep, ?_, ?_⟩
  · intro net id node p fs
    rw [hdl]
    cases hr : net (txtUrl node id) with
    | none => simp
    | some r =>
        dsimp only
        by_cases hok : r.ok && decide (100 < r.content.length)
        · rw [if_pos hok]
          simp only [true_iff]
          exact ⟨r, rfl, Bool.and_elim_left hok, of_decide_eq_true (Bool.and_elim_right hok)⟩
        · rw [if_neg hok]
          simp only [Bool.false_eq_true, false_iff]
          rintro ⟨r2, hr2, hok2, hlen2⟩
          cases Option.some.inj hr2
          exact hok (by rw [hok2, decide_eq_true hlen2]; rfl)
  · intro net id node p fs r hr hok hlen
    rw [hdl, hr]
    dsimp only
    rw [if_pos (by rw [hok, decide_eq_true hlen]; rfl)]
  · intro net net2 fs id p hagree hsucc
    unfold txtStage
    dsimp only
    by_cases hloc : (pathExists fs p && decide (100 < fileSize fs p)) = true
    · rw [if_pos hloc, if_pos hloc]
    · rw [if_neg hloc, if_neg hloc]
      have hsame : download_txt net2 id 1 p fs = download_txt net id 1 p fs := by
        rw [hdl, hdl, hagree]
      rw [hsame, if_pos hsucc, if_pos hsucc]
  · intro net fs id p hloc hfail
    unfold txtStage
    dsimp only
    rw [if_neg (by rw [hloc]; exact Bool.false_ne_true),
      if_neg (by rw [hfail]; exact Bool.false_ne_true),
      hkeep net id 1 p fs hfail]

/-- A network where only node 1 serves a plausible body for novel 42. -/
def net1 : Network :=
  fun u => if u = txtUrl 1 "42" then some { ok := true, content := List.replicate 101 0 } else none

/-- A variant of `net1` that additionally serves node 2 differently. -/
def net2A : Network :=
  fun u => if u = txtUrl 2 "42" then some { ok := true, content := List.replicate 200 1 } else net1 u

/-- C9 (witness): success exactly above the 101-byte body, the write on
success, no write on failure, node 2 irrelevant when node 1 succeeds, and
the stage equalling the node-2 attempt when node 1 fails. -/
theorem txt_download_contract_witness :
    (download_txt net1 "42" 1 ["t"] fsEmpty).1 = true ∧
    download_txt net1 "42" 1 ["t"] fsEmpty =
      (true, writeFile fsEmpty ["t"] (List.replicate 101 0)) ∧
    (download_txt net1 "42" 2 ["t"] fsEmpty).2 = fsEmpty ∧
    txtStage net1 fsEmpty "42" ["t"] = txtStage net2A fsEmpty "42" ["t"] ∧
    txtStage (fun _ => none) fsEmpty "42" ["t"] =
      download_txt (fun _ => none) "42" 2 ["t"] fsEmpty :=
  ⟨(txt_download_contract.1 net1 "42" 1 ["t"] fsEmpty).mpr
      ⟨{ ok := true, content := List.replicate 101 0 }, rfl, rfl, by decide⟩,
   txt_download_contract.2.1 net1 "42" 1 ["t"] fsEmpty
      { ok := true, content := List.replicate 101 0 } rfl rfl (by decide),
   txt_download_contract.2.2.1 net1 "42" 2 ["t"] fsEmpty rfl,
   txt_download_contract.2.2.2.1 net1 net2A fsEmpty "42" ["t"] rfl rfl,
   txt_download_contract.2.2.2.2 (fun _ => none) fsEmpty "42" ["t"] rfl rfl⟩
